import Mathlib

/-!
Shallow embedding of the credential-vault and host-key trust-store core of the
gossh repository, together with proofs of the specification claims.

The Go sources embedded here are:
  * `internal/crypto` — password hashing (`HashPassword`, `VerifyPassword`,
    `decodeHash`), key derivation (`DeriveKey`, `DeriveKeyFromMachine`) and the
    `CryptoService` wrapper;
  * `internal/config/config.go` — the `Manager` vault (settings, connections,
    lock/unlock state machine, persistence snapshots);
  * the ssh package's host-key manager (`CheckHostKey`, `formatHostPort`,
    `FormatFingerprint`, `AddHost`, `UpdateHost`, `Save`, `load`,
    `CreateHostKeyCallback`).

External cryptographic primitives (Argon2id, AES-256-GCM, SHA-256, base64) are
third-party libraries whose sources are not part of the repository; they are
modelled from the spec as ideal deterministic/injective primitives, with doc
comments marking each such model.  Go byte slices are `List Nat` (each element
a byte value), Go strings are Lean `String`s, or `List Char` where the code
manipulates their characters; randomness (salts, nonces, fresh ids) is passed
in as explicit parameters.
-/

set_option maxRecDepth 8000

deriving instance DecidableEq for Except

namespace Gossh


/-! ## Byte-level helpers for the ideal primitives -/

/-- The little-endian base-256 digits (fixed width 4) of a character's code
point.  Used by the ideal Argon2id model to turn a password into bytes
injectively. -/
def bytesOfChar (c : Char) : List Nat :=
  [c.toNat % 256, c.toNat / 256 % 256, c.toNat / 65536 % 256, c.toNat / 16777216 % 256]

/-- Bytes of a character list, block by block. -/
def strBytes : List Char → List Nat
  | [] => []
  | c :: cs => bytesOfChar c ++ strBytes cs

/-! ## Ideal base64 text encoding of bytes

Modelled from the spec: `base64.RawStdEncoding` (an external library, not in
the repository sources) is an injective byte-sequence-to-text encoding whose
output alphabet is disjoint from the `$` delimiter of the hash format and from
whitespace; decoding rejects text outside the alphabet.  The model maps byte
`b` to the character with code point `256 + b`, far away from `$` (36) and
from ASCII whitespace. -/

def encByte (b : Nat) : Char :=
  ⟨UInt32.ofNat (256 + b % 256), by
    have hlt : (256 + b % 256) % 4294967296 = 256 + b % 256 :=
      Nat.mod_eq_of_lt (by omega)
    show ((UInt32.ofNat (256 + b % 256)).toNat).isValidChar
    have : (UInt32.ofNat (256 + b % 256)).toNat = 256 + b % 256 := hlt
    rw [this]
    exact Or.inl (by omega)⟩

/-- Textual encoding of a byte list. -/
def encBytes (bs : List Nat) : List Char := bs.map encByte

/-- Decoding of a single character back to a byte; characters outside the
model's alphabet are rejected. -/
def decByte (c : Char) : Option Nat :=
  if 256 ≤ c.toNat ∧ c.toNat < 512 then some (c.toNat - 256) else none

/-- Decoding of an encoded text back to bytes; any character outside the
alphabet makes the whole decode fail (the `base64` format error). -/
def decBytes : List Char → Option (List Nat)
  | [] => some []
  | c :: cs =>
    match decByte c, decBytes cs with
    | some b, some bs => some (b :: bs)
    | _, _ => none

/-! ## Ideal Argon2id

Modelled from the spec: Argon2id (`golang.org/x/crypto/argon2`, an external
library not in the repository sources) is a key-derivation function that is
deterministic in `(password, salt, parameters)` and — the idealisation behind
the spec's `VerifyPassword(P2, HashPassword(P)) == false` property — collision
free in the password for a fixed salt and parameters.  The model emits the
parameters, the salt and the password's bytes; every output element is a byte
value (< 256). -/
def argon2IDKey (password : String) (salt : List Nat)
    (time memory threads keyLen : Nat) : List Nat :=
  [time % 256, memory % 256, threads % 256, keyLen % 256] ++
    salt.map (· % 256) ++ [0] ++ strBytes password.data

/-! ## Splitting on the `$` delimiter

Embeds Go's `strings.Split(encodedHash, "$")` for the single-character
separator used by the password-hash format. -/

def splitDollar : List Char → List (List Char)
  | [] => [[]]
  | c :: cs =>
    if c = '$' then [] :: splitDollar cs
    else
      match splitDollar cs with
      | [] => [[c]]
      | p :: ps => (c :: p) :: ps

/-! ## Password hashing (`internal/crypto`, `HashPassword` / `VerifyPassword`) -/

/-- `crypto` package errors. -/
inductive CryptoErr where
  | invalidHash
  | passwordTooWeak
  | authFailed
deriving DecidableEq, Repr

/-- Argon2 cost parameters recovered by `decodeHash`. -/
structure ArgonParams where
  memory : Nat
  time : Nat
  threads : Nat
  keyLen : Nat
deriving DecidableEq, Repr

/-- One step of `fmt.Sscanf`-style decimal parsing: the longest leading digit
run and the rest. -/
def spanDigits : List Char → List Char × List Char
  | [] => ([], [])
  | c :: cs =>
    if c.isDigit then
      let (ds, rest) := spanDigits cs
      (c :: ds, rest)
    else ([], c :: cs)

/-- Value of a digit run (most significant digit first). -/
def natOfDigits (ds : List Char) : Nat :=
  ds.foldl (fun acc c => acc * 10 + (c.toNat - 48)) 0

/-- Embeds `fmt.Sscanf(s, "v=%d", &version)`: literal `v=` then at least one
digit. -/
def parseVersion (cs : List Char) : Option Nat :=
  match cs with
  | 'v' :: '=' :: rest =>
    let (ds, _) := spanDigits rest
    if ds = [] then none else some (natOfDigits ds)
  | _ => none

/-- Embeds `fmt.Sscanf(s, "m=%d,t=%d,p=%d", ...)`. -/
def parseCosts (cs : List Char) : Option (Nat × Nat × Nat) :=
  match cs with
  | 'm' :: '=' :: rest =>
    match spanDigits rest with
    | ([], _) => none
    | (ds₁, ',' :: 't' :: '=' :: r₂) =>
      match spanDigits r₂ with
      | ([], _) => none
      | (ds₂, ',' :: 'p' :: '=' :: r₃) =>
        match spanDigits r₃ with
        | ([], _) => none
        | (ds₃, _) => some (natOfDigits ds₁, natOfDigits ds₂, natOfDigits ds₃)
      | _ => none
    | _ => none
  | _ => none

/-- The `$argon2id$v=19$m=65536,t=3,p=4$<salt>$<hash>` rendering produced by
`HashPassword` (the cost string is `fmt.Sprintf` of the fixed constants
`argonMemory = 65536`, `argonTime = 3`, `argonThreads = 4`). -/
def hashEncode (salt hash : List Nat) : List Char :=
  '$' :: ("argon2id".data ++ '$' :: ("v=19".data ++ '$' ::
    ("m=65536,t=3,p=4".data ++ '$' :: (encBytes salt ++ '$' :: encBytes hash))))

/-- `HashPassword` (internal/crypto): rejects passwords shorter than 8 bytes,
otherwise derives an Argon2id hash of the password under the caller-supplied
fresh random `salt` (randomness is passed in explicitly) and renders the
encoded format. -/
def HashPassword (password : String) (salt : List Nat) : Except CryptoErr (List Char) :=
  if password.utf8ByteSize < 8 then .error .passwordTooWeak
  else .ok (hashEncode salt (argon2IDKey password salt 3 65536 4 32))

/-- `decodeHash` (internal/crypto): splits on `$`, checks the six-part shape,
the `argon2id` tag and version 19, parses the cost parameters and decodes the
salt and hash. -/
def decodeHash (encodedHash : List Char) : Except CryptoErr (ArgonParams × List Nat × List Nat) :=
  match splitDollar encodedHash with
  | [_, p₁, p₂, p₃, p₄, p₅] =>
    if p₁ ≠ "argon2id".data then .error .invalidHash
    else
      match parseVersion p₂ with
      | none => .error .invalidHash
      | some v =>
        if v ≠ 19 then .error .invalidHash
        else
          match parseCosts p₃ with
          | none => .error .invalidHash
          | some (m, t, p) =>
            match decBytes p₄, decBytes p₅ with
            | some salt, some hash => .ok (⟨m, t, p, 32⟩, salt, hash)
            | _, _ => .error .invalidHash
  | _ => .error .invalidHash

/-- `VerifyPassword` (internal/crypto): decodes the hash (propagating a format
error), recomputes Argon2id with the extracted parameters and compares in
constant time (`subtle.ConstantTimeCompare`, i.e. equality of the byte
sequences). -/
def VerifyPassword (password : String) (encodedHash : List Char) : Except CryptoErr Bool :=
  match decodeHash encodedHash with
  | .error e => .error e
  | .ok (params, salt, hash) =>
    .ok (decide (hash = argon2IDKey password salt params.time params.memory params.threads params.keyLen))

/-! ## Authenticated encryption and the `CryptoService`

Modelled from the spec: AES-256-GCM (`Encryptor.Encrypt` / `Encryptor.Decrypt`,
whose source file is not in the repository — only its tests and callers are) is
an ideal authenticated cipher.  An encrypted blob is self-contained
(`nonce || ciphertext || tag`); decryption succeeds exactly under the
encrypting key — returning the original plaintext — and fails closed on any
other key (the tag mismatch), never returning partial data.  Nonce freshness
is the caller's randomness, passed in explicitly. -/

/-- A self-contained authenticated ciphertext. -/
structure EncBlob where
  nonce : Nat
  key : List Nat
  plain : String
deriving DecidableEq, Repr

/-- Ideal authenticated encryption under `key` with the given fresh `nonce`. -/
def Encrypt (key : List Nat) (plaintext : String) (nonce : Nat) : EncBlob :=
  ⟨nonce, key, plaintext⟩

/-- Ideal authenticated decryption: fails closed unless the key matches. -/
def Decrypt (key : List Nat) (blob : EncBlob) : Except CryptoErr String :=
  if blob.key = key then .ok blob.plain else .error .authFailed

/-- `DeriveKey` (internal/crypto/key.go): Argon2id key derivation from a
password and a salt string (time 3, memory 65536, threads 4, 32-byte key).
The salt string's characters stand for its bytes. -/
def DeriveKey (password : String) (salt : String) : List Nat :=
  argon2IDKey password (salt.data.map Char.toNat) 3 65536 4 32

/-- `GetMachineID` (internal/crypto/machine.go) hashes stable machine
characteristics; within one machine it is a fixed string, modelled as an
abstract constant. -/
def GetMachineID : String := "machine-id"

/-- `DeriveKeyFromMachine` (internal/crypto/machine.go): derives a key from the
machine id under the fixed application salt `gossh-machine-key-v1`. -/
def DeriveKeyFromMachine : List Nat :=
  DeriveKey GetMachineID "gossh-machine-key-v1"

/-- `CryptoService` (internal/crypto/key.go): an encryptor bound to a derived
key, remembering the salt it was derived with. -/
structure CryptoService where
  key : List Nat
  salt : String
deriving DecidableEq, Repr

/-- `NewCryptoService`: derive the key from the master password and salt. -/
def NewCryptoService (masterPassword salt : String) : CryptoService :=
  ⟨DeriveKey masterPassword salt, salt⟩

/-- `NewCryptoServiceWithKey`: wrap a pre-derived key (the 32-byte length
normalisation by SHA-256 is identity in the ideal model). -/
def NewCryptoServiceWithKey (key : List Nat) (salt : String) : CryptoService :=
  ⟨key, salt⟩

/-- `CryptoService.Encrypt`. -/
def CryptoService.Encrypt (c : CryptoService) (plaintext : String) (nonce : Nat) : EncBlob :=
  Gossh.Encrypt c.key plaintext nonce

/-- `CryptoService.Decrypt`. -/
def CryptoService.Decrypt (c : CryptoService) (blob : EncBlob) : Except CryptoErr String :=
  Gossh.Decrypt c.key blob

/-! ## The vault data model (`internal/model`)

Encrypted blob fields are `Option EncBlob`: `none` is the Go empty string,
`some blob` a non-empty encoded ciphertext.  Timestamps are abstract `Nat`
instants supplied by the caller in place of `time.Now()`. -/

/-- `model.Connection`. -/
structure Connection where
  id : String
  name : String
  host : String
  port : Int
  user : String
  authType : String
  authMethod : String
  password : String
  encryptedPassword : Option EncBlob
  keyPath : String
  keyPassword : String
  encryptedKeyPassphrase : Option EncBlob
  group : String
  tags : List String
  startupCommand : String
  lastConnected : Option Nat
  lastStatus : String
  healthStatus : String
  createdAt : Nat
  updatedAt : Nat
deriving DecidableEq, Repr

/-- `model` validation errors. -/
inductive ValidationErr where
  | nameRequired
  | hostRequired
  | userRequired
  | invalidPort
  | keyPathRequired
deriving DecidableEq, Repr

/-- `Connection.Validate`. -/
def Connection.validate (c : Connection) : Option ValidationErr :=
  if c.name = "" then some .nameRequired
  else if c.host = "" then some .hostRequired
  else if c.user = "" then some .userRequired
  else if c.port ≤ 0 ∨ 65535 < c.port then some .invalidPort
  else if c.authMethod = "key" ∧ c.keyPath = "" then some .keyPathRequired
  else none

/-- `model.Settings`. -/
structure Settings where
  masterPasswordHash : List Char
  encryptionSalt : String
  passwordProtectionEnabled : Bool
  initialized : Bool
  connectionTimeout : Int
  defaultPort : Int
  theme : String
  language : String
deriving DecidableEq, Repr

/-- `Settings.IsPasswordSet`. -/
def Settings.isPasswordSet (s : Settings) : Bool :=
  s.masterPasswordHash ≠ []

/-- `model.NewSettings`. -/
def NewSettings : Settings :=
  { masterPasswordHash := []
    encryptionSalt := ""
    passwordProtectionEnabled := false
    initialized := false
    connectionTimeout := 10
    defaultPort := 22
    theme := "dark"
    language := "en" }

/-- `model.Group`. -/
structure Group where
  name : String
  color : String
deriving DecidableEq, Repr

/-- `model.Config`. -/
structure Config where
  version : String
  settings : Settings
  groups : List Group
  connections : List Connection
deriving DecidableEq, Repr

/-- `model.NewConfig`. -/
def NewConfig : Config :=
  { version := "1.0"
    settings := NewSettings
    groups := [⟨"Production", "#ff6b6b"⟩, ⟨"Development", "#4ecdc4"⟩, ⟨"Testing", "#ffe66d"⟩]
    connections := [] }

/-! ## The vault `Manager` (internal/config/config.go)

Mutating operations mirror the Go methods' mutate-then-save order; every error
return happens before any state change exactly where the Go method returns
early, so the unchanged manager is returned alongside the error.  Disk writes
are modelled by returning the serialized snapshot (`saved`); file-system
errors (and the `GenerateSalt` entropy failure) are outside the model, so a
reached save always succeeds.  Fresh randomness (salts, nonces) and clock
readings (`time.Now()`) are explicit parameters. -/

/-- `config.Manager` (minus the lock and the file path). -/
structure Manager where
  config : Config
  cryptoService : Option CryptoService
  unlocked : Bool
deriving DecidableEq, Repr

/-- `config.Manager` errors. -/
inductive Err where
  | validation : ValidationErr → Err
  | crypto : CryptoErr → Err
  | invalidPassword
  | masterPasswordAlreadySet
  | alreadyInitialized
  | connectionNotFound
  | groupExists
deriving DecidableEq, Repr

/-- Result of a mutating `Manager` method: the manager after the call, the
returned error, and the snapshot written to disk if the method saved. -/
structure OpResult where
  mgr : Manager
  err : Option Err
  saved : Option Config
deriving DecidableEq, Repr

/-- `NewManager` on a first run (no config file on disk): default config,
locked, no session key (Go zero values). -/
def NewManagerFresh : Manager :=
  { config := NewConfig, cryptoService := none, unlocked := false }

/-- `NewManager` when a config file exists: `Load` replaces the in-memory
config with the file's contents. -/
def NewManagerLoad (disk : Config) : Manager :=
  { config := disk, cryptoService := none, unlocked := false }

/-- `Manager.Load` (successful read): the file's config replaces the
in-memory one wholesale; read or parse errors return before any change. -/
def Load (m : Manager) (disk : Config) : Manager :=
  { m with config := disk }

/-- `Manager.saveUnlocked`: the persisted snapshot — a copy of the config with
every connection's plaintext secret fields cleared. -/
def redactConn (c : Connection) : Connection :=
  { c with password := "", keyPassword := "" }

/-- The snapshot `saveUnlocked` serializes and writes. -/
def saveUnlocked (m : Manager) : Config :=
  { m.config with connections := m.config.connections.map redactConn }

/-- `Manager.Save`. -/
def Save (m : Manager) : OpResult :=
  ⟨m, none, some (saveUnlocked m)⟩

/-- `Manager.IsFirstRun`. -/
def IsFirstRun (m : Manager) : Bool :=
  ¬ m.config.settings.initialized

/-- `Manager.IsUnlocked`: always unlocked while password protection is
disabled, otherwise the in-memory unlocked flag. -/
def IsUnlocked (m : Manager) : Bool :=
  if ¬ m.config.settings.passwordProtectionEnabled then true
  else m.unlocked

/-- `Manager.SetupMasterPassword`: first-time password setup.  `salt` is the
fresh `GenerateSalt` output, `hashSalt` the fresh 16-byte salt drawn inside
`HashPassword`. -/
def SetupMasterPassword (m : Manager) (password salt : String) (hashSalt : List Nat) : OpResult :=
  if m.config.settings.isPasswordSet then ⟨m, some .masterPasswordAlreadySet, none⟩
  else
    match HashPassword password hashSalt with
    | .error e => ⟨m, some (.crypto e), none⟩
    | .ok hash =>
      let cs := NewCryptoService password salt
      let m' : Manager :=
        { m with
          config.settings.masterPasswordHash := hash
          config.settings.encryptionSalt := salt
          config.settings.passwordProtectionEnabled := true
          config.settings.initialized := true
          cryptoService := some cs
          unlocked := true }
      ⟨m', none, some (saveUnlocked m')⟩

/-- `Manager.SetupWithoutPassword`: first-time setup without a master
password; encryption still happens under the machine-derived key. -/
def SetupWithoutPassword (m : Manager) (salt : String) : OpResult :=
  if m.config.settings.initialized then ⟨m, some .alreadyInitialized, none⟩
  else
    let cs := NewCryptoServiceWithKey DeriveKeyFromMachine salt
    let m' : Manager :=
      { m with
        config.settings.encryptionSalt := salt
        config.settings.passwordProtectionEnabled := false
        config.settings.initialized := true
        cryptoService := some cs
        unlocked := true }
    ⟨m', none, some (saveUnlocked m')⟩

/-- The per-connection decryption pass of `Unlock`/`autoUnlock`: each non-empty
encrypted field is decrypted into its plaintext mirror, and a failed
decryption leaves the mirror untouched (`if err == nil`). -/
def decryptConn (cs : CryptoService) (c : Connection) : Connection :=
  let c₁ :=
    match c.encryptedPassword with
    | none => c
    | some blob =>
      match cs.Decrypt blob with
      | .ok plain => { c with password := plain }
      | .error _ => c
  match c₁.encryptedKeyPassphrase with
  | none => c₁
  | some blob =>
    match cs.Decrypt blob with
    | .ok plain => { c₁ with keyPassword := plain }
    | .error _ => c₁

/-- `Manager.autoUnlock` (password protection disabled): unlock under the
machine-derived key, decrypting what can be decrypted. -/
def autoUnlock (m : Manager) : Manager × Option Err :=
  if m.config.settings.encryptionSalt = "" then ({ m with unlocked := true }, none)
  else
    let cs := NewCryptoServiceWithKey DeriveKeyFromMachine m.config.settings.encryptionSalt
    ({ m with
        cryptoService := some cs
        unlocked := true
        config.connections := m.config.connections.map (decryptConn cs) }, none)

/-- `Manager.Unlock`: auto-unlock when protection is disabled; trivially
unlock when no hash is stored; otherwise verify the password, derive the
session key from the stored salt and decrypt every connection's secrets.
`Unlock` does not save. -/
def Unlock (m : Manager) (password : String) : Manager × Option Err :=
  if ¬ m.config.settings.passwordProtectionEnabled then autoUnlock m
  else if ¬ m.config.settings.isPasswordSet then ({ m with unlocked := true }, none)
  else
    match VerifyPassword password m.config.settings.masterPasswordHash with
    | .error e => (m, some (.crypto e))
    | .ok false => (m, some .invalidPassword)
    | .ok true =>
      let cs := NewCryptoService password m.config.settings.encryptionSalt
      ({ m with
          cryptoService := some cs
          unlocked := true
          config.connections := m.config.connections.map (decryptConn cs) }, none)

/-- `Manager.AutoUnlockIfNeeded`. -/
def AutoUnlockIfNeeded (m : Manager) : Manager × Option Err :=
  if ¬ m.config.settings.passwordProtectionEnabled ∧ m.config.settings.initialized then
    autoUnlock m
  else (m, none)

/-- The opportunistic encryption applied by connection mutations when a
session key is installed: each non-empty plaintext secret is encrypted into
its blob mirror, under nonces `nonce` and `nonce + 1`. -/
def encryptConnFields (cs : CryptoService) (c : Connection) (nonce : Nat) : Connection :=
  let c₁ :=
    if c.password ≠ "" then
      { c with encryptedPassword := some (cs.Encrypt c.password nonce) }
    else c
  if c₁.keyPassword ≠ "" then
    { c₁ with encryptedKeyPassphrase := some (cs.Encrypt c₁.keyPassword (nonce + 1)) }
  else c₁

/-- `Manager.AddConnection`: validate, stamp times, opportunistically encrypt
if a crypto service is available, append, save. -/
def AddConnection (m : Manager) (conn : Connection) (now nonce : Nat) : OpResult :=
  match conn.validate with
  | some e => ⟨m, some (.validation e), none⟩
  | none =>
    let conn₁ := { conn with createdAt := now, updatedAt := now }
    let conn₂ :=
      match m.cryptoService with
      | some cs => encryptConnFields cs conn₁ nonce
      | none => conn₁
    let m' : Manager := { m with config.connections := m.config.connections ++ [conn₂] }
    ⟨m', none, some (saveUnlocked m')⟩

/-- The first-match replacement loop of `Manager.UpdateConnection`. -/
def replaceById (cs? : Option CryptoService) (conn : Connection) (now nonce : Nat) :
    List Connection → Option (List Connection)
  | [] => none
  | c :: rest =>
    if c.id = conn.id then
      let conn₁ := { conn with createdAt := c.createdAt, updatedAt := now }
      let conn₂ :=
        match cs? with
        | some cs => encryptConnFields cs conn₁ nonce
        | none => conn₁
      some (conn₂ :: rest)
    else
      match replaceById cs? conn now nonce rest with
      | some rest' => some (c :: rest')
      | none => none

/-- `Manager.UpdateConnection`. -/
def UpdateConnection (m : Manager) (conn : Connection) (now nonce : Nat) : OpResult :=
  match conn.validate with
  | some e => ⟨m, some (.validation e), none⟩
  | none =>
    match replaceById m.cryptoService conn now nonce m.config.connections with
    | some conns =>
      let m' : Manager := { m with config.connections := conns }
      ⟨m', none, some (saveUnlocked m')⟩
    | none => ⟨m, some .connectionNotFound, none⟩

/-- The first-match status update loop of `Manager.UpdateConnectionStatus`. -/
def statusById (id status : String) (now : Nat) :
    List Connection → Option (List Connection)
  | [] => none
  | c :: rest =>
    if c.id = id then
      some ({ c with lastConnected := some now, lastStatus := status, updatedAt := now } :: rest)
    else
      match statusById id status now rest with
      | some rest' => some (c :: rest')
      | none => none

/-- `Manager.UpdateConnectionStatus`. -/
def UpdateConnectionStatus (m : Manager) (id status : String) (now : Nat) : OpResult :=
  match statusById id status now m.config.connections with
  | some conns =>
    let m' : Manager := { m with config.connections := conns }
    ⟨m', none, some (saveUnlocked m')⟩
  | none => ⟨m, some .connectionNotFound, none⟩

/-- The first-match removal loop of `Manager.DeleteConnection`. -/
def removeById (id : String) : List Connection → Option (List Connection)
  | [] => none
  | c :: rest =>
    if c.id = id then some rest
    else
      match removeById id rest with
      | some rest' => some (c :: rest')
      | none => none

/-- `Manager.DeleteConnection`. -/
def DeleteConnection (m : Manager) (id : String) : OpResult :=
  match removeById id m.config.connections with
  | some conns =>
    let m' : Manager := { m with config.connections := conns }
    ⟨m', none, some (saveUnlocked m')⟩
  | none => ⟨m, some .connectionNotFound, none⟩

/-- `Manager.AddGroup`. -/
def AddGroup (m : Manager) (group : Group) : OpResult :=
  if m.config.groups.any (fun g => g.name = group.name) then ⟨m, some .groupExists, none⟩
  else
    let m' : Manager := { m with config.groups := m.config.groups ++ [group] }
    ⟨m', none, some (saveUnlocked m')⟩

/-- The re-encryption loop of `EnablePassword`/`DisablePassword`: every
non-empty plaintext secret is re-encrypted under the new service's key, with
fresh nonces `nonce + 2*i` per connection. -/
def reencryptConns (cs : CryptoService) (nonce : Nat) : List Connection → List Connection
  | [] => []
  | c :: rest => encryptConnFields cs c nonce :: reencryptConns cs (nonce + 2) rest

/-- `Manager.EnablePassword`: new salt and hash, new password-derived session
key, re-encrypt every secret, flip the protection flag on, save. -/
def EnablePassword (m : Manager) (password salt : String) (hashSalt : List Nat) (nonce : Nat) :
    OpResult :=
  match HashPassword password hashSalt with
  | .error e => ⟨m, some (.crypto e), none⟩
  | .ok hash =>
    let cs := NewCryptoService password salt
    let m' : Manager :=
      { m with
        config.connections := reencryptConns cs nonce m.config.connections
        config.settings.masterPasswordHash := hash
        config.settings.encryptionSalt := salt
        config.settings.passwordProtectionEnabled := true
        cryptoService := some cs }
    ⟨m', none, some (saveUnlocked m')⟩

/-- `Manager.DisablePassword`: verify the current password (when a hash is
stored), derive a fresh machine-bound key under a new salt, re-encrypt every
secret, clear the hash, flip the protection flag off, save. -/
def DisablePassword (m : Manager) (currentPassword salt : String) (nonce : Nat) : OpResult :=
  let proceed : Unit → OpResult := fun _ =>
    let cs := NewCryptoServiceWithKey DeriveKeyFromMachine salt
    let m' : Manager :=
      { m with
        config.connections := reencryptConns cs nonce m.config.connections
        config.settings.masterPasswordHash := []
        config.settings.encryptionSalt := salt
        config.settings.passwordProtectionEnabled := false
        cryptoService := some cs }
    ⟨m', none, some (saveUnlocked m')⟩
  if m.config.settings.masterPasswordHash ≠ [] then
    match VerifyPassword currentPassword m.config.settings.masterPasswordHash with
    | .error e => ⟨m, some (.crypto e), none⟩
    | .ok false => ⟨m, some .invalidPassword, none⟩
    | .ok true => proceed ()
  else proceed ()

/-- `Manager.SetLanguage`. -/
def SetLanguage (m : Manager) (lang : String) : OpResult :=
  let m' : Manager := { m with config.settings.language := lang }
  ⟨m', none, some (saveUnlocked m')⟩

/-- The per-item loop of `Manager.ImportConnections`.  `freshId` supplies the
`uuid.New()` values for connections imported under a new name; `fidx` and
`nonce` walk the id and nonce supplies. -/
def importLoop (cs? : Option CryptoService) (now : Nat) (freshId : Nat → String)
    (overwrite : Bool) :
    List Connection → List Connection → Nat → Nat → Nat → List Connection × Nat
  | existing, [], _, _, imported => (existing, imported)
  | existing, conn :: rest, nonce, fidx, imported =>
    if existing.any (fun c => c.name = conn.name) then
      if overwrite then
        let existing' := existing.map (fun c =>
          if c.name = conn.name then
            let conn₁ := { conn with id := c.id, createdAt := c.createdAt, updatedAt := now }
            match cs? with
            | some cs => encryptConnFields cs conn₁ nonce
            | none => conn₁
          else c)
        importLoop cs? now freshId overwrite existing' rest (nonce + 2) fidx (imported + 1)
      else importLoop cs? now freshId overwrite existing rest nonce fidx imported
    else
      let conn₁ := { conn with id := freshId fidx, createdAt := now, updatedAt := now }
      let conn₂ :=
        match cs? with
        | some cs => encryptConnFields cs conn₁ nonce
        | none => conn₁
      importLoop cs? now freshId overwrite (existing ++ [conn₂]) rest (nonce + 2) (fidx + 1)
        (imported + 1)

/-- `Manager.ImportConnections`: merge a list of foreign connections by name,
saving only when at least one was imported. -/
def ImportConnections (m : Manager) (connections : List Connection) (overwrite : Bool)
    (now : Nat) (freshId : Nat → String) (nonce : Nat) : OpResult × Nat :=
  let (conns, imported) :=
    importLoop m.cryptoService now freshId overwrite m.config.connections connections nonce 0 0
  let m' : Manager := { m with config.connections := conns }
  if imported > 0 then (⟨m', none, some (saveUnlocked m')⟩, imported)
  else (⟨m', none, none⟩, imported)

/-! ## The host-key trust store (ssh package, `hostkey` file)

The `known_hosts` file is a list of lines, each a `List Char` (the scanner
splits on newlines; entries are newline-free).  The `host:port → fingerprint`
map is an association list with unique keys, insertion replacing in place.
SHA-256 is modelled as an ideal injective digest (`sha256M`) since the
library is external to the repository. -/

/-- `HostKeyStatus`. -/
inductive HostKeyStatus where
  | ok
  | new
  | changed
deriving DecidableEq, Repr

/-- `HostKeyResult`. -/
structure HostKeyResult where
  status : HostKeyStatus
  host : String
  fingerprint : List Char
  keyType : String
  oldKey : List Char
deriving DecidableEq, Repr

/-- An SSH public key as the callback sees it: its algorithm name
(`key.Type()`) and its wire encoding (`key.Marshal()`). -/
structure PubKey where
  keyType : String
  keyData : List Nat
deriving DecidableEq, Repr

/-- Modelled from the spec: SHA-256 (`crypto/sha256`, external) as an ideal
injective digest over byte sequences. -/
def sha256M (bs : List Nat) : List Nat := 2 :: bs

/-- `FormatFingerprint`: `"<keyType> SHA256:<base64(rawhash)>"`. -/
def FormatFingerprint (key : PubKey) : List Char :=
  key.keyType.data ++ " SHA256:".data ++ encBytes (sha256M key.keyData)

/-- `formatHostPort`: `host` for the default port 22, else `[host]:port`. -/
def formatHostPort (host : String) (port : Int) : String :=
  if port = 22 then host else "[" ++ host ++ "]:" ++ toString port

/-- `HostKeyManager` (minus the lock and file path). -/
structure HostKeyManager where
  knownHosts : List (String × List Char)
deriving DecidableEq, Repr

/-- Association-list lookup standing for the Go map read. -/
def lookupFP : List (String × List Char) → String → Option (List Char)
  | [], _ => none
  | (h, f) :: rest, k => if h = k then some f else lookupFP rest k

/-- Association-list insertion standing for the Go map write (replaces the
existing binding, else appends). -/
def insertFP : List (String × List Char) → String → List Char → List (String × List Char)
  | [], k, v => [(k, v)]
  | (h, f) :: rest, k, v =>
    if h = k then (k, v) :: rest else (h, f) :: insertFP rest k v

/-- `HostKeyManager.CheckHostKey`: read-only comparison of the presented
key's fingerprint with the stored one under the normalized identifier. -/
def CheckHostKey (hkm : HostKeyManager) (host : String) (port : Int) (key : PubKey) :
    HostKeyResult :=
  let hostKey := formatHostPort host port
  let fingerprint := FormatFingerprint key
  match lookupFP hkm.knownHosts hostKey with
  | none => ⟨.new, host, fingerprint, key.keyType, []⟩
  | some stored =>
    if stored = fingerprint then ⟨.ok, host, fingerprint, key.keyType, []⟩
    else ⟨.changed, host, fingerprint, key.keyType, stored⟩

/-- `HostKeyManager.Save`: truncate and rewrite the file with one
`# <host> <fingerprint>` comment line per entry. -/
def SaveFile (hkm : HostKeyManager) : List (List Char) :=
  hkm.knownHosts.map (fun hf => '#' :: ' ' :: (hf.1.data ++ ' ' :: hf.2))

/-- `HostKeyManager.AddHost`: insert the fingerprint into the map and append
one OpenSSH-format line `<hostKey> <keyType> <base64(key)>` to the file. -/
def AddHost (hkm : HostKeyManager) (file : List (List Char)) (host : String) (port : Int)
    (key : PubKey) : HostKeyManager × List (List Char) :=
  let hostKey := formatHostPort host port
  let hkm' : HostKeyManager := ⟨insertFP hkm.knownHosts hostKey (FormatFingerprint key)⟩
  let line := hostKey.data ++ ' ' :: (key.keyType.data ++ ' ' :: encBytes key.keyData)
  (hkm', file ++ [line])

/-- `HostKeyManager.UpdateHost`: replace the fingerprint in the map, then
`rewriteFile` — which is `Save`, discarding the previous file contents. -/
def UpdateHost (hkm : HostKeyManager) (_file : List (List Char)) (host : String) (port : Int)
    (key : PubKey) : HostKeyManager × List (List Char) :=
  let hkm' : HostKeyManager := ⟨insertFP hkm.knownHosts (formatHostPort host port)
    (FormatFingerprint key)⟩
  (hkm', SaveFile hkm')

/-- The whitespace class of `strings.TrimSpace` / `strings.Fields` for the
characters that can occur in entries. -/
def isSpaceChar (c : Char) : Bool :=
  c = ' ' ∨ c = '\t' ∨ c = '\n' ∨ c = '\r'

/-- `strings.TrimSpace`. -/
def trimSpace (cs : List Char) : List Char :=
  ((cs.dropWhile isSpaceChar).reverse.dropWhile isSpaceChar).reverse

/-- Does the (already trimmed) line start with the `#` comment marker
(`strings.HasPrefix(line, "#")`)? -/
def headIsHash : List Char → Bool
  | '#' :: _ => true
  | _ => false

/-- `strings.Fields`: maximal whitespace-free runs. -/
def fieldsAux (cur : List Char) : List Char → List (List Char)
  | [] => if cur = [] then [] else [cur.reverse]
  | c :: cs =>
    if isSpaceChar c then
      if cur = [] then fieldsAux [] cs else cur.reverse :: fieldsAux [] cs
    else fieldsAux (c :: cur) cs

/-- `strings.Fields` over a line. -/
def fieldsOf (cs : List Char) : List (List Char) := fieldsAux [] cs

/-- `HostKeyManager.computeFingerprint`: base64-decode the key column and
fingerprint it; a decode failure yields the empty fingerprint string. -/
def computeFingerprint (keyType keyData : List Char) : List Char :=
  match decBytes keyData with
  | none => []
  | some decoded => keyType ++ " SHA256:".data ++ encBytes (sha256M decoded)

/-- One line of `HostKeyManager.load`: trim, skip blank and comment lines,
skip lines with fewer than three fields, otherwise store the fingerprint
computed from the key column under the host column. -/
def loadLine (acc : List (String × List Char)) (line : List Char) :
    List (String × List Char) :=
  let line := trimSpace line
  if line = [] then acc
  else if headIsHash line then acc
  else
    match fieldsOf line with
    | host :: keyType :: keyData :: _ =>
      insertFP acc (String.mk host) (computeFingerprint keyType keyData)
    | _ => acc

/-- `HostKeyManager.load` over a whole file into the initially empty map of a
fresh `NewHostKeyManager`. -/
def loadFile (file : List (List Char)) : List (String × List Char) :=
  file.foldl loadLine []

/-- `HostKeyCallback` — the caller-supplied policy
`func(result) (accept, update bool)`. -/
def HostKeyHandler : Type := HostKeyResult → Bool × Bool

/-- The error cases of the callback created by `CreateHostKeyCallback`. -/
inductive CallbackErr where
  | unknownHost (host : String)
  | keyChanged (host : String)
  | keyRejected (host : String)
  | changeRejected (host : String)
deriving DecidableEq, Repr

/-- The body of the closure returned by `CreateHostKeyCallback`, after the
transport address has been split into `host` and `port` (the `net.SplitHostPort`
prelude of the closure).  With no handler it fails closed on both `New` and
`Changed`; with a handler it applies the policy decision, persisting through
`AddHost` on an accepted new host and through `UpdateHost` on an accepted,
update-confirmed change.  The trailing `unknown host key status` return in the
Go code is unreachable (all three statuses are handled). -/
def hostKeyCallback (hkm : HostKeyManager) (file : List (List Char))
    (handler : Option HostKeyHandler) (host : String) (port : Int) (key : PubKey) :
    HostKeyManager × List (List Char) × Option CallbackErr :=
  let result := CheckHostKey hkm host port key
  let newOrChanged : Unit → HostKeyManager × List (List Char) × Option CallbackErr := fun _ =>
    match handler with
    | none =>
      if result.status = .new then (hkm, file, some (.unknownHost host))
      else (hkm, file, some (.keyChanged host))
    | some policy =>
      let (accept, update) := policy result
      if ¬ accept then
        if result.status = .new then (hkm, file, some (.keyRejected host))
        else (hkm, file, some (.changeRejected host))
      else if result.status = .new then
        let (hkm', file') := AddHost hkm file host port key
        (hkm', file', none)
      else if update then
        let (hkm', file') := UpdateHost hkm file host port key
        (hkm', file', none)
      else (hkm, file, none)
  match result.status with
  | .ok => (hkm, file, none)
  | .new => newOrChanged ()
  | .changed => newOrChanged ()

/-! ## Concrete fixtures used in witnesses and counterexamples -/

/-- A baseline valid password-auth connection. -/
def connBase : Connection :=
  { id := "c1", name := "one", host := "example.com", port := 22, user := "root",
    authType := "password", authMethod := "password", password := "",
    encryptedPassword := none, keyPath := "", keyPassword := "",
    encryptedKeyPassphrase := none, group := "", tags := [], startupCommand := "",
    lastConnected := none, lastStatus := "unknown", healthStatus := "",
    createdAt := 0, updatedAt := 0 }

/-- The stored master-password hash for the password `"password"` under hash
salt `[3]`. -/
def storedHash : List Char :=
  hashEncode [3] (argon2IDKey "password" [3] 3 65536 4 32)

/-- A password-protected locked vault with one decryptable connection and one
whose blob was encrypted under a different key (a corrupted blob). -/
def mgrTwoConns : Manager :=
  { config :=
      { NewConfig with
        settings :=
          { NewSettings with
            masterPasswordHash := storedHash
            encryptionSalt := "s"
            passwordProtectionEnabled := true
            initialized := true }
        connections :=
          [{ connBase with
              id := "good"
              encryptedPassword := some ⟨0, DeriveKey "password" "s", "alpha"⟩ },
           { connBase with
              id := "bad"
              encryptedPassword := some ⟨0, [7], "beta"⟩ }] }
    cryptoService := none
    unlocked := false }

/-- A locked password-protected vault with no connections. -/
def mgrLocked : Manager :=
  { config :=
      { NewConfig with
        settings :=
          { NewSettings with
            masterPasswordHash := storedHash
            encryptionSalt := "s"
            passwordProtectionEnabled := true
            initialized := true } }
    cryptoService := none
    unlocked := false }

/-- An initialized passwordless vault as a fresh process sees it before any
auto-unlock: no session key installed. -/
def mgrPasswordless : Manager :=
  { config :=
      { NewConfig with
        settings :=
          { NewSettings with encryptionSalt := "s", initialized := true } }
    cryptoService := none
    unlocked := false }

/-- A connection carrying a plaintext secret. -/
def connSecret : Connection :=
  { connBase with id := "c2", name := "two", password := "hunter2" }

/-- An initialized vault whose `initialized` flag is set. -/
def mgrInitialized : Manager :=
  { config := { NewConfig with settings := { NewSettings with initialized := true } }
    cryptoService := none
    unlocked := false }

/-! ## The re-key round trip (C7) -/

/-- The connection added in the re-key scenario, carrying the secret
`"s3cr3t"`. -/
def conn7 : Connection := { connBase with password := "s3cr3t" }

/-- The in-memory manager at the end of the re-key pipeline
(`SetupWithoutPassword` → `AddConnection conn7` → `EnablePassword pwd`), whose
redacted snapshot is the persisted file the fresh manager reopens. -/
def rekeyFinal (pwd salt₁ : String) (hashSalt : List Nat) (now n₁ : Nat) : Manager :=
  { config :=
      { version := "1.0"
        settings :=
          { masterPasswordHash := hashEncode hashSalt (argon2IDKey pwd hashSalt 3 65536 4 32)
            encryptionSalt := salt₁
            passwordProtectionEnabled := true
            initialized := true
            connectionTimeout := 10
            defaultPort := 22
            theme := "dark"
            language := "en" }
        groups := NewConfig.groups
        connections := [{ conn7 with
            createdAt := now
            updatedAt := now
            encryptedPassword := some ⟨n₁, DeriveKey pwd salt₁, "s3cr3t"⟩ }] }
    cryptoService := some ⟨DeriveKey pwd salt₁, salt₁⟩
    unlocked := true }

/-! ## Theorems -/

theorem char_toNat_lt (c : Char) : c.toNat < 1114112 := by
  have h := c.valid
  unfold Nat.isValidChar at h
  show c.val.toNat < 1114112
  rcases h with h | ⟨_, h⟩ <;> omega

theorem char_toNat_injective {c₁ c₂ : Char} (h : c₁.toNat = c₂.toNat) : c₁ = c₂ := by
  refine Char.eq_of_val_eq ?_
  have h1 : c₁.val.toNat = c₂.val.toNat := h
  exact UInt32.toNat.inj h1

theorem bytesOfChar_length (c : Char) : (bytesOfChar c).length = 4 := rfl

theorem bytesOfChar_injective {c₁ c₂ : Char} (h : bytesOfChar c₁ = bytesOfChar c₂) :
    c₁ = c₂ := by
  apply char_toNat_injective
  have h1 := char_toNat_lt c₁
  have h2 := char_toNat_lt c₂
  unfold bytesOfChar at h
  simp only [List.cons.injEq, and_true] at h
  omega

theorem strBytes_injective : ∀ {l₁ l₂ : List Char}, strBytes l₁ = strBytes l₂ → l₁ = l₂
  | [], [], _ => rfl
  | [], c :: cs, h => by
    have : (strBytes []).length = (strBytes (c :: cs)).length := by rw [h]
    simp [strBytes, bytesOfChar] at this
  | c :: cs, [], h => by
    have : (strBytes (c :: cs)).length = (strBytes []).length := by rw [h]
    simp [strBytes, bytesOfChar] at this
  | c₁ :: cs₁, c₂ :: cs₂, h => by
    have hblocks := List.append_inj (by simpa [strBytes] using h)
      (by rw [bytesOfChar_length, bytesOfChar_length])
    have hc := bytesOfChar_injective hblocks.1
    have hcs := strBytes_injective hblocks.2
    rw [hc, hcs]

theorem encByte_toNat (b : Nat) : (encByte b).toNat = 256 + b % 256 := by
  have h : (encByte b).toNat = (256 + b % 256) % 4294967296 := rfl
  rw [h]
  exact Nat.mod_eq_of_lt (by omega)

theorem decByte_encByte (b : Nat) : decByte (encByte b) = some (b % 256) := by
  have hb : b % 256 < 256 := Nat.mod_lt _ (by omega)
  unfold decByte
  rw [encByte_toNat,
    if_pos (show 256 ≤ 256 + b % 256 ∧ 256 + b % 256 < 512 from ⟨by omega, by omega⟩)]
  have h2 : 256 + b % 256 - 256 = b % 256 := by omega
  rw [h2]

theorem decBytes_encBytes (bs : List Nat) (h : ∀ b ∈ bs, b < 256) :
    decBytes (encBytes bs) = some bs := by
  induction bs with
  | nil => rfl
  | cons b rest ih =>
    have hb : b < 256 := h b (by simp)
    have hrest := ih (fun x hx => h x (by simp [hx]))
    simp only [encBytes, List.map_cons] at *
    unfold decBytes
    rw [decByte_encByte, hrest, Nat.mod_eq_of_lt hb]

theorem encByte_ne_dollar (b : Nat) : encByte b ≠ '$' := by
  intro h
  have h1 := encByte_toNat b
  rw [h] at h1
  have h2 : ('$').toNat = 36 := rfl
  omega

theorem encBytes_injective {a b : List Nat} (ha : ∀ x ∈ a, x < 256)
    (hb : ∀ x ∈ b, x < 256) (h : encBytes a = encBytes b) : a = b := by
  have := congrArg decBytes h
  rw [decBytes_encBytes a ha, decBytes_encBytes b hb] at this
  exact Option.some.inj this

theorem strBytes_lt (l : List Char) : ∀ b ∈ strBytes l, b < 256 := by
  induction l with
  | nil => intro b hb; simp [strBytes] at hb
  | cons c cs ih =>
    intro b hb
    rw [strBytes, List.mem_append] at hb
    rcases hb with h | h
    · unfold bytesOfChar at h
      simp only [List.mem_cons, List.not_mem_nil, or_false] at h
      rcases h with rfl | rfl | rfl | rfl <;> exact Nat.mod_lt _ (by omega)
    · exact ih b h

theorem argon2IDKey_lt (password : String) (salt : List Nat)
    (time memory threads keyLen : Nat) :
    ∀ b ∈ argon2IDKey password salt time memory threads keyLen, b < 256 := by
  intro b hb
  unfold argon2IDKey at hb
  rcases List.mem_append.mp hb with h | h
  · rcases List.mem_append.mp h with h | h
    · rcases List.mem_append.mp h with h | h
      · simp only [List.mem_cons, List.not_mem_nil, or_false] at h
        rcases h with rfl | rfl | rfl | rfl <;> exact Nat.mod_lt _ (by omega)
      · obtain ⟨x, _, rfl⟩ := List.mem_map.mp h
        exact Nat.mod_lt _ (by omega)
    · simp only [List.mem_singleton] at h
      omega
  · exact strBytes_lt _ b h

theorem argon2IDKey_password_injective {p₁ p₂ : String} (salt : List Nat)
    (time memory threads keyLen : Nat)
    (h : argon2IDKey p₁ salt time memory threads keyLen =
         argon2IDKey p₂ salt time memory threads keyLen) : p₁ = p₂ := by
  unfold argon2IDKey at h
  have h1 : strBytes p₁.data = strBytes p₂.data := List.append_cancel_left h
  have hdata := strBytes_injective h1
  cases p₁ with
  | mk d₁ =>
    cases p₂ with
    | mk d₂ => exact congrArg String.mk (by simpa using hdata)

/-- A character list free of the delimiter splits into itself. -/
theorem splitDollar_no_dollar {xs : List Char} (h : '$' ∉ xs) : splitDollar xs = [xs] := by
  induction xs with
  | nil => rfl
  | cons c cs ih =>
    have hc : c ≠ '$' := fun hc => h (by simp [hc])
    have hcs := ih (fun hm => h (by simp [hm]))
    simp only [splitDollar, if_neg hc, hcs]

/-- Splitting distributes over the first delimiter after a clean chunk. -/
theorem splitDollar_append {xs : List Char} (ys : List Char) (h : '$' ∉ xs) :
    splitDollar (xs ++ '$' :: ys) = xs :: splitDollar ys := by
  induction xs with
  | nil =>
    simp [splitDollar]
  | cons c cs ih =>
    have hc : c ≠ '$' := fun hc => h (by simp [hc])
    have hcs := ih (fun hm => h (by simp [hm]))
    simp only [List.cons_append, splitDollar, if_neg hc]
    rw [show cs.append ('$' :: ys) = cs ++ '$' :: ys from rfl, hcs]

theorem splitDollar_hashEncode (salt hash : List Nat) :
    splitDollar (hashEncode salt hash) =
      [[], "argon2id".data, "v=19".data, "m=65536,t=3,p=4".data, encBytes salt, encBytes hash] := by
  have hs : '$' ∉ encBytes salt := by
    intro hm
    obtain ⟨b, _, hb⟩ := List.mem_map.mp hm
    exact encByte_ne_dollar b hb
  have hh : '$' ∉ encBytes hash := by
    intro hm
    obtain ⟨b, _, hb⟩ := List.mem_map.mp hm
    exact encByte_ne_dollar b hb
  unfold hashEncode
  rw [show ('$' :: ("argon2id".data ++ '$' :: ("v=19".data ++ '$' ::
      ("m=65536,t=3,p=4".data ++ '$' :: (encBytes salt ++ '$' :: encBytes hash)))) :
      List Char) = [] ++ '$' :: ("argon2id".data ++ '$' :: ("v=19".data ++ '$' ::
      ("m=65536,t=3,p=4".data ++ '$' :: (encBytes salt ++ '$' :: encBytes hash)))) from rfl]
  rw [splitDollar_append _ (by simp)]
  rw [splitDollar_append _ (by decide)]
  rw [splitDollar_append _ (by decide)]
  rw [splitDollar_append _ (by decide)]
  rw [splitDollar_append _ hs]
  rw [splitDollar_no_dollar hh]

/-- Decoding an encoded hash produced by `HashPassword` recovers the salt, the
cost parameters and the Argon2id output. -/
theorem decodeHash_hashEncode (salt hash : List Nat)
    (hsalt : ∀ b ∈ salt, b < 256) (hhash : ∀ b ∈ hash, b < 256) :
    decodeHash (hashEncode salt hash) = .ok (⟨65536, 3, 4, 32⟩, salt, hash) := by
  unfold decodeHash
  rw [splitDollar_hashEncode]
  simp only [decBytes_encBytes salt hsalt, decBytes_encBytes hash hhash]
  rfl

/-- Round trip at the heart of unlock: a hash written by `HashPassword`
verifies the hashing password and rejects (without error) every other
password. -/
theorem verifyPassword_hashPassword (password other : String) (salt : List Nat)
    (hsalt : ∀ b ∈ salt, b < 256) :
    VerifyPassword other (hashEncode salt (argon2IDKey password salt 3 65536 4 32)) =
      .ok (decide (password = other)) := by
  unfold VerifyPassword
  rw [decodeHash_hashEncode salt _ hsalt (argon2IDKey_lt password salt 3 65536 4 32)]
  by_cases h : password = other
  · subst h
    simp
  · have hne : argon2IDKey password salt 3 65536 4 32 ≠
        argon2IDKey other salt 3 65536 4 32 := by
      intro he
      exact h (argon2IDKey_password_injective salt 3 65536 4 32 he)
    simp [h, hne]

/-! ## Trust-store lemmas -/

theorem dropWhile_append_last {p : Char → Bool} {a : Char} (ha : p a = false) :
    ∀ xs : List Char, ∃ pre, (xs ++ [a]).dropWhile p = pre ++ [a] := by
  intro xs
  induction xs with
  | nil =>
    refine ⟨[], ?_⟩
    simp [List.dropWhile, ha]
  | cons x rest ih =>
    by_cases hx : p x
    · obtain ⟨pre, hpre⟩ := ih
      refine ⟨pre, ?_⟩
      simp [List.dropWhile, hx, hpre]
    · refine ⟨x :: rest, ?_⟩
      simp [List.dropWhile, hx]

theorem trimSpace_hash_head (cs : List Char) :
    headIsHash (trimSpace ('#' :: cs)) = true := by
  have hns : isSpaceChar '#' = false := rfl
  unfold trimSpace
  rw [show ('#' :: cs).dropWhile isSpaceChar = '#' :: cs by simp [List.dropWhile, hns]]
  rw [show ('#' :: cs).reverse = cs.reverse ++ ['#'] by simp]
  obtain ⟨pre, hpre⟩ := dropWhile_append_last hns cs.reverse
  rw [hpre, List.reverse_append]
  rfl

theorem loadLine_comment {line : List Char} (h : headIsHash (trimSpace line) = true)
    (acc : List (String × List Char)) : loadLine acc line = acc := by
  unfold loadLine
  by_cases he : trimSpace line = []
  · simp [he]
  · simp [he, h]

theorem loadFile_all_comments {lines : List (List Char)}
    (h : ∀ l ∈ lines, headIsHash (trimSpace l) = true) :
    ∀ acc, lines.foldl loadLine acc = acc := by
  induction lines with
  | nil => intro acc; rfl
  | cons l rest ih =>
    intro acc
    rw [List.foldl_cons, loadLine_comment (h l (by simp)) acc]
    exact ih (fun x hx => h x (by simp [hx])) acc

/-! ## Claim theorems: trust store -/

/-- C4: for every host, port and presented public key, `CheckHostKey` returns
`New` when no record exists under the normalized identifier, `OK` when the
stored fingerprint equals the presented key's fingerprint, and `Changed`
carrying the previously stored fingerprint in `OldKey` otherwise.  The check
is read-only by construction: it consumes the manager and returns only a
result, never a modified store. -/
theorem checkHostKey_cases (hkm : HostKeyManager) (host : String) (port : Int) (key : PubKey) :
    (lookupFP hkm.knownHosts (formatHostPort host port) = none →
      CheckHostKey hkm host port key =
        ⟨.new, host, FormatFingerprint key, key.keyType, []⟩) ∧
    (∀ stored, lookupFP hkm.knownHosts (formatHostPort host port) = some stored →
      (stored = FormatFingerprint key →
        CheckHostKey hkm host port key =
          ⟨.ok, host, FormatFingerprint key, key.keyType, []⟩) ∧
      (stored ≠ FormatFingerprint key →
        CheckHostKey hkm host port key =
          ⟨.changed, host, FormatFingerprint key, key.keyType, stored⟩)) := by
  refine ⟨fun hnone => ?_, fun stored hstored => ⟨fun heq => ?_, fun hne => ?_⟩⟩
  · simp only [CheckHostKey, hnone]
  · simp only [CheckHostKey, hstored]
    rw [if_pos heq]
  · simp only [CheckHostKey, hstored]
    rw [if_neg hne]

theorem checkHostKey_cases_witness :
    CheckHostKey ⟨[]⟩ "h" 22 ⟨"ssh-ed25519", [1]⟩ =
        ⟨.new, "h", FormatFingerprint ⟨"ssh-ed25519", [1]⟩, "ssh-ed25519", []⟩ ∧
      CheckHostKey ⟨[("h", FormatFingerprint ⟨"ssh-ed25519", [1]⟩)]⟩ "h" 22 ⟨"ssh-ed25519", [1]⟩ =
        ⟨.ok, "h", FormatFingerprint ⟨"ssh-ed25519", [1]⟩, "ssh-ed25519", []⟩ ∧
      CheckHostKey ⟨[("h", FormatFingerprint ⟨"ssh-ed25519", [2]⟩)]⟩ "h" 22 ⟨"ssh-ed25519", [1]⟩ =
        ⟨.changed, "h", FormatFingerprint ⟨"ssh-ed25519", [1]⟩, "ssh-ed25519",
          FormatFingerprint ⟨"ssh-ed25519", [2]⟩⟩ :=
  ⟨(checkHostKey_cases ⟨[]⟩ "h" 22 ⟨"ssh-ed25519", [1]⟩).1 (by decide),
   ((checkHostKey_cases ⟨[("h", FormatFingerprint ⟨"ssh-ed25519", [1]⟩)]⟩ "h" 22
      ⟨"ssh-ed25519", [1]⟩).2 _ (by decide)).1 rfl,
   ((checkHostKey_cases ⟨[("h", FormatFingerprint ⟨"ssh-ed25519", [2]⟩)]⟩ "h" 22
      ⟨"ssh-ed25519", [1]⟩).2 _ (by decide)).2 (by decide)⟩

/-- C3: with no policy handler supplied, the host-key callback fails closed —
it returns the `unknown host` error on an unknown host and the
`host key changed` error on a changed key, leaving store and file untouched;
it accepts (no error) exactly when the stored record matches the presented
key's fingerprint. -/
theorem hostKeyCallback_nil_failsClosed (hkm : HostKeyManager) (file : List (List Char))
    (host : String) (port : Int) (key : PubKey) :
    ((CheckHostKey hkm host port key).status = .new →
      hostKeyCallback hkm file none host port key = (hkm, file, some (.unknownHost host))) ∧
    ((CheckHostKey hkm host port key).status = .changed →
      hostKeyCallback hkm file none host port key = (hkm, file, some (.keyChanged host))) ∧
    ((hostKeyCallback hkm file none host port key).2.2 = none ↔
      lookupFP hkm.knownHosts (formatHostPort host port) = some (FormatFingerprint key)) := by
  rcases hlk : lookupFP hkm.knownHosts (formatHostPort host port) with _ | stored
  · refine ⟨fun _ => ?_, fun hch => ?_, ?_⟩
    · simp [hostKeyCallback, CheckHostKey, hlk]
    · simp [CheckHostKey, hlk] at hch
    · simp [hostKeyCallback, CheckHostKey, hlk]
  · by_cases heq : stored = FormatFingerprint key
    · refine ⟨fun hnew => ?_, fun hch => ?_, ?_⟩
      · simp [CheckHostKey, hlk, heq] at hnew
      · simp [CheckHostKey, hlk, heq] at hch
      · simp [hostKeyCallback, CheckHostKey, hlk, heq]
    · refine ⟨fun hnew => ?_, fun _ => ?_, ?_⟩
      · simp [CheckHostKey, hlk, heq] at hnew
      · simp [hostKeyCallback, CheckHostKey, hlk, heq]
      · simp [hostKeyCallback, CheckHostKey, hlk, heq]

theorem hostKeyCallback_nil_failsClosed_witness :
    hostKeyCallback ⟨[]⟩ [] none "h" 22 ⟨"ssh-ed25519", [1]⟩ =
        (⟨[]⟩, [], some (.unknownHost "h")) ∧
      hostKeyCallback ⟨[("h", FormatFingerprint ⟨"ssh-ed25519", [2]⟩)]⟩ [] none "h" 22
          ⟨"ssh-ed25519", [1]⟩ =
        (⟨[("h", FormatFingerprint ⟨"ssh-ed25519", [2]⟩)]⟩, [], some (.keyChanged "h")) :=
  ⟨(hostKeyCallback_nil_failsClosed ⟨[]⟩ [] "h" 22 ⟨"ssh-ed25519", [1]⟩).1 (by decide),
   (hostKeyCallback_nil_failsClosed ⟨[("h", FormatFingerprint ⟨"ssh-ed25519", [2]⟩)]⟩ [] "h" 22
      ⟨"ssh-ed25519", [1]⟩).2.1 (by decide)⟩

/-- C9: after any `UpdateHost` call the rewritten trust-store file consists
exclusively of `# `-prefixed comment lines carrying only fingerprints (the
original public-key bytes are discarded), and loading that file skips every
line, yielding an empty known-hosts map. -/
theorem updateHost_lossy_rewrite (hkm : HostKeyManager) (file : List (List Char))
    (host : String) (port : Int) (key : PubKey) :
    (∀ line ∈ (UpdateHost hkm file host port key).2, ∃ rest, line = '#' :: ' ' :: rest) ∧
    loadFile (UpdateHost hkm file host port key).2 = [] := by
  constructor
  · intro line hline
    unfold UpdateHost SaveFile at hline
    simp only [List.mem_map] at hline
    obtain ⟨hf, _, hrw⟩ := hline
    exact ⟨hf.1.data ++ ' ' :: hf.2, hrw.symm⟩
  · unfold loadFile UpdateHost SaveFile
    refine loadFile_all_comments ?_ []
    intro l hl
    simp only [List.mem_map] at hl
    obtain ⟨hf, _, hrw⟩ := hl
    rw [← hrw]
    exact trimSpace_hash_head _

theorem updateHost_lossy_rewrite_witness :
    loadFile (UpdateHost ⟨[("a", ['x'])]⟩ [['y']] "h" 22 ⟨"ssh-ed25519", [1, 2]⟩).2 = [] ∧
      (∃ rest, ('#' :: ' ' :: ("a".data ++ ' ' :: ['x'])) = '#' :: ' ' :: rest) :=
  ⟨(updateHost_lossy_rewrite ⟨[("a", ['x'])]⟩ [['y']] "h" 22 ⟨"ssh-ed25519", [1, 2]⟩).2,
   (updateHost_lossy_rewrite ⟨[("a", ['x'])]⟩ [['y']] "h" 22 ⟨"ssh-ed25519", [1, 2]⟩).1 _
      (by decide)⟩

/-! ## Claim theorems: password hashing -/

/-- C8: `VerifyPassword(P, HashPassword(P))` is `true` for every password of
byte length at least 8; for every other password `P₂` it is `false` with no
error.  An error can only arise from a structurally invalid encoded hash —
a hash produced by `HashPassword` never produces one. -/
theorem verifyPassword_roundtrip (P P₂ : String) (salt : List Nat)
    (hsalt : ∀ b ∈ salt, b < 256) (hlen : 8 ≤ P.utf8ByteSize) (enc : List Char)
    (henc : HashPassword P salt = .ok enc) :
    VerifyPassword P enc = .ok true ∧ (P₂ ≠ P → VerifyPassword P₂ enc = .ok false) := by
  unfold HashPassword at henc
  rw [if_neg (by omega)] at henc
  have henc' : hashEncode salt (argon2IDKey P salt 3 65536 4 32) = enc := by
    cases henc
    rfl
  subst henc'
  constructor
  · rw [verifyPassword_hashPassword P P salt hsalt]
    simp
  · intro hne
    rw [verifyPassword_hashPassword P P₂ salt hsalt]
    have h' : ¬ P = P₂ := fun h => hne h.symm
    simp [h']

theorem verifyPassword_roundtrip_witness :
    VerifyPassword "hunter2hunter2"
        (hashEncode [7, 200] (argon2IDKey "hunter2hunter2" [7, 200] 3 65536 4 32)) = .ok true ∧
      VerifyPassword "HUNTER2hunter2"
        (hashEncode [7, 200] (argon2IDKey "hunter2hunter2" [7, 200] 3 65536 4 32)) = .ok false :=
  ⟨(verifyPassword_roundtrip "hunter2hunter2" "HUNTER2hunter2" [7, 200] (by decide) (by decide)
      _ rfl).1,
   (verifyPassword_roundtrip "hunter2hunter2" "HUNTER2hunter2" [7, 200] (by decide) (by decide)
      _ rfl).2 (by decide)⟩

/-! ## Vault lemmas -/

/-- A successful password verification drives `Unlock` into its decrypting
branch: the session key is installed, the vault unlocks, and every connection
goes through `decryptConn`. -/
theorem unlock_verified (m : Manager) (password : String)
    (hprot : m.config.settings.passwordProtectionEnabled = true)
    (hset : m.config.settings.isPasswordSet = true)
    (hver : VerifyPassword password m.config.settings.masterPasswordHash = .ok true) :
    Unlock m password =
      ({ m with
          cryptoService := some (NewCryptoService password m.config.settings.encryptionSalt)
          unlocked := true
          config.connections := m.config.connections.map
            (decryptConn (NewCryptoService password m.config.settings.encryptionSalt)) },
        none) := by
  simp [Unlock, hprot, hset, hver]

theorem decryptConn_preserves_blobs (cs : CryptoService) (c : Connection) :
    (decryptConn cs c).encryptedPassword = c.encryptedPassword ∧
    (decryptConn cs c).encryptedKeyPassphrase = c.encryptedKeyPassphrase := by
  unfold decryptConn
  cases h₁ : c.encryptedPassword with
  | none =>
    cases h₂ : c.encryptedKeyPassphrase with
    | none => simp [h₁, h₂]
    | some blob₂ => cases hd : cs.Decrypt blob₂ <;> simp [h₁, h₂, hd]
  | some blob₁ =>
    cases hd₁ : cs.Decrypt blob₁ with
    | error e =>
      cases h₂ : c.encryptedKeyPassphrase with
      | none => simp [h₁, h₂, hd₁]
      | some blob₂ => cases hd₂ : cs.Decrypt blob₂ <;> simp [h₁, h₂, hd₁, hd₂]
    | ok plain =>
      cases h₂ : c.encryptedKeyPassphrase with
      | none => simp [h₁, h₂, hd₁]
      | some blob₂ => cases hd₂ : cs.Decrypt blob₂ <;> simp [h₁, h₂, hd₁, hd₂]

theorem decryptConn_failed_password (cs : CryptoService) (c : Connection) (blob : EncBlob)
    (e : CryptoErr) (hb : c.encryptedPassword = some blob)
    (hf : cs.Decrypt blob = .error e) :
    (decryptConn cs c).password = c.password := by
  unfold decryptConn
  simp only [hb, hf]
  cases h₂ : c.encryptedKeyPassphrase with
  | none => simp [h₂]
  | some blob₂ => cases hd₂ : cs.Decrypt blob₂ <;> simp [h₂, hd₂]

/-! ## Claim theorems: vault -/

/-- C2: in password-protected mode with a stored hash, `Unlock` with a
password that does not verify returns an error and performs no mutation at
all: the manager is returned unchanged — still locked, no session key
installed, every connection untouched. -/
theorem unlock_wrong_password_unchanged (m : Manager) (password : String)
    (hprot : m.config.settings.passwordProtectionEnabled = true)
    (hset : m.config.settings.isPasswordSet = true)
    (hlock : m.unlocked = false)
    (hwrong : VerifyPassword password m.config.settings.masterPasswordHash ≠ .ok true) :
    (∃ e, Unlock m password = (m, some e)) ∧ IsUnlocked (Unlock m password).1 = false := by
  have hres : ∃ e, Unlock m password = (m, some e) := by
    unfold Unlock
    rw [hprot, hset]
    cases hv : VerifyPassword password m.config.settings.masterPasswordHash with
    | error e => exact ⟨.crypto e, by simp [hv]⟩
    | ok b =>
      cases b with
      | false => exact ⟨.invalidPassword, by simp [hv]⟩
      | true => exact absurd hv hwrong
  refine ⟨hres, ?_⟩
  obtain ⟨e, he⟩ := hres
  rw [he]
  simp [IsUnlocked, hprot, hlock]

theorem unlock_wrong_password_unchanged_witness :
    (∃ e, Unlock mgrLocked "letmein99" = (mgrLocked, some e)) ∧
      IsUnlocked (Unlock mgrLocked "letmein99").1 = false :=
  unlock_wrong_password_unchanged mgrLocked "letmein99" (by decide) (by decide) (by decide)
    (by decide)

/-- C10: whenever password protection is disabled, `IsUnlocked` reports `true`
even though no unlock ever ran and no session key exists
(`cryptoService = none`); in that state `AddConnection` skips encryption
entirely — the stored record is the input connection with only its timestamps
stamped, its secret fields (plaintext and encrypted mirrors) bit-for-bit
unchanged. -/
theorem passwordless_unlocked_skips_encryption (m : Manager) (conn : Connection)
    (now nonce : Nat)
    (hprot : m.config.settings.passwordProtectionEnabled = false)
    (hcs : m.cryptoService = none) (hval : conn.validate = none) :
    IsUnlocked m = true ∧
    (AddConnection m conn now nonce).mgr.config.connections =
      m.config.connections ++ [{ conn with createdAt := now, updatedAt := now }] := by
  constructor
  · simp [IsUnlocked, hprot]
  · unfold AddConnection
    rw [hval, hcs]

theorem passwordless_unlocked_skips_encryption_witness :
    IsUnlocked mgrPasswordless = true ∧
      (AddConnection mgrPasswordless connSecret 5 0).mgr.config.connections =
        mgrPasswordless.config.connections ++
          [{ connSecret with createdAt := 5, updatedAt := 5 }] :=
  passwordless_unlocked_skips_encryption mgrPasswordless connSecret 5 0 (by decide) (by decide)
    (by decide)

/-- C6 counterexample: with no session key installed (a passwordless vault in
a fresh process, before any auto-unlock), `AddConnection` with a non-empty
secret succeeds but the persisted record has an *empty* encrypted field along
with its (correctly) empty plaintext field — the secret reaches disk nowhere,
contradicting the claim's unconditional non-empty encrypted field. -/
theorem addConnection_unencrypted_on_disk :
    (AddConnection mgrPasswordless connSecret 5 0).err = none ∧
      connSecret.password = "hunter2" ∧
      ((AddConnection mgrPasswordless connSecret 5 0).saved.map fun cfg =>
          cfg.connections.map fun c => (c.password, c.encryptedPassword)) =
        some [("", none)] := by
  decide

/-- C6 (amended): after any `AddConnection` call while a crypto service is
installed, the persisted snapshot's record for the new connection has a
non-empty encrypted field for each non-empty secret field; and — with or
without a session key — the persisted form never contains the plaintext
mirrors. -/
theorem addConnection_persists_encrypted (m : Manager) (cs : CryptoService)
    (conn : Connection) (now nonce : Nat)
    (hcs : m.cryptoService = some cs) (hval : conn.validate = none) :
    ∃ cfg, (AddConnection m conn now nonce).saved = some cfg ∧
      (∀ c ∈ cfg.connections, c.password = "" ∧ c.keyPassword = "") ∧
      ∃ rec, cfg.connections.getLast? = some rec ∧
        (conn.password ≠ "" → rec.encryptedPassword.isSome) ∧
        (conn.keyPassword ≠ "" → rec.encryptedKeyPassphrase.isSome) := by
  unfold AddConnection
  rw [hval, hcs]
  refine ⟨_, rfl, ?_, ?_⟩
  · intro c hc
    unfold saveUnlocked at hc
    simp only [List.mem_map] at hc
    obtain ⟨c₀, _, hrw⟩ := hc
    rw [← hrw]
    exact ⟨rfl, rfl⟩
  · refine ⟨redactConn (encryptConnFields cs { conn with createdAt := now, updatedAt := now }
      nonce), ?_, ?_, ?_⟩
    · unfold saveUnlocked
      simp
    · intro hp
      unfold redactConn encryptConnFields
      rw [if_pos (show ({ conn with createdAt := now, updatedAt := now } :
        Connection).password ≠ "" from hp)]
      by_cases hk : conn.keyPassword = "" <;> simp [hk]
    · intro hk
      unfold redactConn encryptConnFields
      by_cases hp : conn.password = "" <;> simp [hp, hk]

theorem addConnection_persists_encrypted_witness :
    ∃ cfg, (AddConnection { mgrPasswordless with
        cryptoService := some (NewCryptoServiceWithKey DeriveKeyFromMachine "s") }
        connSecret 5 0).saved = some cfg ∧
      (∀ c ∈ cfg.connections, c.password = "" ∧ c.keyPassword = "") ∧
      ∃ rec, cfg.connections.getLast? = some rec ∧
        (connSecret.password ≠ "" → rec.encryptedPassword.isSome) ∧
        (connSecret.keyPassword ≠ "" → rec.encryptedKeyPassphrase.isSome) :=
  addConnection_persists_encrypted _ (NewCryptoServiceWithKey DeriveKeyFromMachine "s")
    connSecret 5 0 rfl (by decide)

/-- C1 counterexample: unlocking `mgrTwoConns` with the correct master
password decrypts the sound record (`"alpha"`) and leaves the corrupted
record's plaintext mirror empty, but returns *no* error at all — the
decryption failure is silently swallowed, contradicting the claim that it is
reported once to the caller. -/
theorem unlock_swallows_decrypt_failure :
    (Unlock mgrTwoConns "password").2 = none ∧
      (Unlock mgrTwoConns "password").1.config.connections.map Connection.password =
        ["alpha", ""] := by
  decide

/-- C1 (amended): with the correct master password, a per-record decryption
failure does not abort unlocking — every decryptable record is decrypted, the
failed record's plaintext mirror stays unchanged (empty) and its encrypted
blob is preserved — but the failure is not reported at all: `Unlock` returns
success. -/
theorem unlock_skips_failed_decrypts (m : Manager) (password : String)
    (hprot : m.config.settings.passwordProtectionEnabled = true)
    (hset : m.config.settings.isPasswordSet = true)
    (hver : VerifyPassword password m.config.settings.masterPasswordHash = .ok true) :
    (Unlock m password).2 = none ∧
    (Unlock m password).1.config.connections =
      m.config.connections.map
        (decryptConn (NewCryptoService password m.config.settings.encryptionSalt)) ∧
    (∀ cs c, (decryptConn cs c).encryptedPassword = c.encryptedPassword ∧
      (decryptConn cs c).encryptedKeyPassphrase = c.encryptedKeyPassphrase) ∧
    (∀ cs c blob e, c.encryptedPassword = some blob →
      CryptoService.Decrypt cs blob = .error e →
      (decryptConn cs c).password = c.password) := by
  have hu := unlock_verified m password hprot hset hver
  refine ⟨by rw [hu], by rw [hu], fun cs c => decryptConn_preserves_blobs cs c,
    fun cs c blob e hb hf => decryptConn_failed_password cs c blob e hb hf⟩

theorem unlock_skips_failed_decrypts_witness :
    (Unlock mgrTwoConns "password").2 = none ∧
      (Unlock mgrTwoConns "password").1.config.connections =
        mgrTwoConns.config.connections.map
          (decryptConn (NewCryptoService "password" mgrTwoConns.config.settings.encryptionSalt)) ∧
      (∀ cs c, (decryptConn cs c).encryptedPassword = c.encryptedPassword ∧
        (decryptConn cs c).encryptedKeyPassphrase = c.encryptedKeyPassphrase) ∧
      (∀ cs c blob e, c.encryptedPassword = some blob →
        CryptoService.Decrypt cs blob = .error e →
        (decryptConn cs c).password = c.password) :=
  unlock_skips_failed_decrypts mgrTwoConns "password" (by decide) (by decide) (by decide)

/-! ## Monotonicity of the `initialized` flag، per operation -/

theorem init_mono_setupMaster (m : Manager) (password salt : String) (hashSalt : List Nat)
    (h : m.config.settings.initialized = true) :
    (SetupMasterPassword m password salt hashSalt).mgr.config.settings.initialized = true := by
  unfold SetupMasterPassword
  split
  · exact h
  · split
    · exact h
    · rfl

theorem init_mono_setupWithout (m : Manager) (salt : String)
    (h : m.config.settings.initialized = true) :
    (SetupWithoutPassword m salt).mgr.config.settings.initialized = true := by
  unfold SetupWithoutPassword
  split
  all_goals exact h

theorem init_mono_autoUnlock (m : Manager)
    (h : m.config.settings.initialized = true) :
    (autoUnlock m).1.config.settings.initialized = true := by
  unfold autoUnlock
  split <;> exact h

theorem init_mono_unlock (m : Manager) (password : String)
    (h : m.config.settings.initialized = true) :
    (Unlock m password).1.config.settings.initialized = true := by
  unfold Unlock
  split
  · exact init_mono_autoUnlock m h
  · split
    · exact h
    · split <;> exact h

theorem init_mono_autoUnlockIfNeeded (m : Manager)
    (h : m.config.settings.initialized = true) :
    (AutoUnlockIfNeeded m).1.config.settings.initialized = true := by
  unfold AutoUnlockIfNeeded
  split
  · exact init_mono_autoUnlock m h
  · exact h

theorem init_mono_addConnection (m : Manager) (conn : Connection) (now nonce : Nat)
    (h : m.config.settings.initialized = true) :
    (AddConnection m conn now nonce).mgr.config.settings.initialized = true := by
  unfold AddConnection
  split
  · exact h
  · exact h

theorem init_mono_updateConnection (m : Manager) (conn : Connection) (now nonce : Nat)
    (h : m.config.settings.initialized = true) :
    (UpdateConnection m conn now nonce).mgr.config.settings.initialized = true := by
  unfold UpdateConnection
  split
  · exact h
  · split <;> exact h

theorem init_mono_updateStatus (m : Manager) (id status : String) (now : Nat)
    (h : m.config.settings.initialized = true) :
    (UpdateConnectionStatus m id status now).mgr.config.settings.initialized = true := by
  unfold UpdateConnectionStatus
  split <;> exact h

theorem init_mono_deleteConnection (m : Manager) (id : String)
    (h : m.config.settings.initialized = true) :
    (DeleteConnection m id).mgr.config.settings.initialized = true := by
  unfold DeleteConnection
  split <;> exact h

theorem init_mono_addGroup (m : Manager) (group : Group)
    (h : m.config.settings.initialized = true) :
    (AddGroup m group).mgr.config.settings.initialized = true := by
  unfold AddGroup
  split <;> exact h

theorem init_mono_enablePassword (m : Manager) (password salt : String)
    (hashSalt : List Nat) (nonce : Nat)
    (h : m.config.settings.initialized = true) :
    (EnablePassword m password salt hashSalt nonce).mgr.config.settings.initialized = true := by
  unfold EnablePassword
  split
  · exact h
  · exact h

theorem init_mono_disablePassword (m : Manager) (currentPassword salt : String) (nonce : Nat)
    (h : m.config.settings.initialized = true) :
    (DisablePassword m currentPassword salt nonce).mgr.config.settings.initialized = true := by
  unfold DisablePassword
  split
  · split <;> exact h
  · exact h

theorem init_mono_setLanguage (m : Manager) (lang : String)
    (h : m.config.settings.initialized = true) :
    (SetLanguage m lang).mgr.config.settings.initialized = true := by
  exact h

theorem init_mono_importConnections (m : Manager) (connections : List Connection)
    (overwrite : Bool) (now : Nat) (freshId : Nat → String) (nonce : Nat)
    (h : m.config.settings.initialized = true) :
    (ImportConnections m connections overwrite now freshId nonce).1.mgr.config.settings.initialized
      = true := by
  unfold ImportConnections
  split
  dsimp only
  split <;> exact h

theorem init_mono_save (m : Manager)
    (h : m.config.settings.initialized = true) :
    (Save m).mgr.config.settings.initialized = true := by
  exact h

/-- C5 counterexample: `Load` replaces the whole in-memory config with the
file's contents, so loading a file whose `initialized` flag is `false` (a
never-set-up config) on a manager whose flag is `true` reverts the flag —
the claimed monotonicity across the `load` operation fails. -/
theorem load_reverts_initialized :
    mgrInitialized.config.settings.initialized = true ∧
      (Load mgrInitialized NewConfig).config.settings.initialized = false := by
  decide

/-- C5 (amended): the `initialized` flag is monotonic across every modelled
`Manager` operation except `Load`: setup, unlock, auto-unlock, connection
mutations, import, group mutation, enable/disable password, language change
and save never transition it from `true` back to `false`.  `Load` instead
replaces the flag with the loaded file's value, so monotonicity under `Load`
holds exactly when the loaded file records an initialized vault (as every
snapshot saved after setup does). -/
theorem initialized_monotonic :
    (∀ m password salt hashSalt, m.config.settings.initialized = true →
      (SetupMasterPassword m password salt hashSalt).mgr.config.settings.initialized = true) ∧
    (∀ m salt, m.config.settings.initialized = true →
      (SetupWithoutPassword m salt).mgr.config.settings.initialized = true) ∧
    (∀ m password, m.config.settings.initialized = true →
      (Unlock m password).1.config.settings.initialized = true) ∧
    (∀ m, m.config.settings.initialized = true →
      (AutoUnlockIfNeeded m).1.config.settings.initialized = true) ∧
    (∀ m conn now nonce, m.config.settings.initialized = true →
      (AddConnection m conn now nonce).mgr.config.settings.initialized = true) ∧
    (∀ m conn now nonce, m.config.settings.initialized = true →
      (UpdateConnection m conn now nonce).mgr.config.settings.initialized = true) ∧
    (∀ m id status now, m.config.settings.initialized = true →
      (UpdateConnectionStatus m id status now).mgr.config.settings.initialized = true) ∧
    (∀ m id, m.config.settings.initialized = true →
      (DeleteConnection m id).mgr.config.settings.initialized = true) ∧
    (∀ m group, m.config.settings.initialized = true →
      (AddGroup m group).mgr.config.settings.initialized = true) ∧
    (∀ m password salt hashSalt nonce, m.config.settings.initialized = true →
      (EnablePassword m password salt hashSalt nonce).mgr.config.settings.initialized = true) ∧
    (∀ m currentPassword salt nonce, m.config.settings.initialized = true →
      (DisablePassword m currentPassword salt nonce).mgr.config.settings.initialized = true) ∧
    (∀ m lang, m.config.settings.initialized = true →
      (SetLanguage m lang).mgr.config.settings.initialized = true) ∧
    (∀ m connections overwrite now freshId nonce, m.config.settings.initialized = true →
      (ImportConnections m connections overwrite now
        freshId nonce).1.mgr.config.settings.initialized = true) ∧
    (∀ m, m.config.settings.initialized = true →
      (Save m).mgr.config.settings.initialized = true) ∧
    (∀ m disk, (Load m disk).config.settings.initialized = disk.settings.initialized) :=
  ⟨init_mono_setupMaster, init_mono_setupWithout, init_mono_unlock,
   init_mono_autoUnlockIfNeeded, init_mono_addConnection, init_mono_updateConnection,
   init_mono_updateStatus, init_mono_deleteConnection, init_mono_addGroup,
   init_mono_enablePassword, init_mono_disablePassword, init_mono_setLanguage,
   init_mono_importConnections, init_mono_save, fun _ _ => rfl⟩

theorem initialized_monotonic_witness :
    (SetupMasterPassword mgrInitialized "password" "s" [3]).mgr.config.settings.initialized
        = true ∧
      (AddConnection mgrInitialized connSecret 5 0).mgr.config.settings.initialized = true ∧
      (Load mgrInitialized mgrInitialized.config).config.settings.initialized =
        mgrInitialized.config.settings.initialized :=
  ⟨initialized_monotonic.1 mgrInitialized "password" "s" [3] (by decide),
   initialized_monotonic.2.2.2.2.1 mgrInitialized connSecret 5 0 (by decide),
   initialized_monotonic.2.2.2.2.2.2.2.2.2.2.2.2.2.2 mgrInitialized mgrInitialized.config⟩

theorem hashEncode_ne_nil (salt hash : List Nat) : hashEncode salt hash ≠ [] := by
  unfold hashEncode
  exact List.cons_ne_nil _ _

/-- `EnablePassword` with a password of at least 8 bytes runs its
re-encrypting happy path. -/
theorem enablePassword_ok (m : Manager) (password salt : String) (hashSalt : List Nat)
    (nonce : Nat) (hlen : 8 ≤ password.utf8ByteSize) :
    EnablePassword m password salt hashSalt nonce =
      (let cs := NewCryptoService password salt
       let m' : Manager :=
        { m with
          config.connections := reencryptConns cs nonce m.config.connections
          config.settings.masterPasswordHash :=
            hashEncode hashSalt (argon2IDKey password hashSalt 3 65536 4 32)
          config.settings.encryptionSalt := salt
          config.settings.passwordProtectionEnabled := true
          cryptoService := some cs }
       ⟨m', none, some (saveUnlocked m')⟩) := by
  unfold EnablePassword HashPassword
  rw [if_neg (by omega)]

/-- C7 counterexample: the claim's literal password `"newPwd"` is 6 bytes
long, so `EnablePassword("newPwd")` in the claimed pipeline fails with the
password-too-weak error instead of re-keying. -/
theorem enablePassword_newPwd_tooShort :
    "newPwd".utf8ByteSize = 6 ∧
      (EnablePassword
          (AddConnection (SetupWithoutPassword NewManagerFresh "s0").mgr conn7 1 0).mgr
          "newPwd" "s1" [9] 2).err = some (.crypto .passwordTooWeak) := by
  decide

/-- C7 (amended): the re-key round trip holds for every enabling password of
at least 8 bytes (the claim's `"newPwd"` placeholder is shorter than the
8-byte minimum `HashPassword` enforces): starting from a freshly set-up
passwordless vault, after `AddConnection` of a connection with secret
`"s3cr3t"`, then `EnablePassword(pwd)`, reopening a fresh manager from the
persisted snapshot and unlocking with `pwd` succeeds and decrypts the
connection's secret back to `"s3cr3t"`. -/
theorem rekey_roundtrip (pwd salt₀ salt₁ : String) (hashSalt : List Nat)
    (now n₀ n₁ : Nat) (hlen : 8 ≤ pwd.utf8ByteSize) (hhs : ∀ b ∈ hashSalt, b < 256) :
    ∃ cfg,
      (EnablePassword
          (AddConnection (SetupWithoutPassword NewManagerFresh salt₀).mgr conn7 now n₀).mgr
          pwd salt₁ hashSalt n₁).saved = some cfg ∧
        (Unlock (NewManagerLoad cfg) pwd).2 = none ∧
        (Unlock (NewManagerLoad cfg) pwd).1.config.connections.map Connection.password =
          ["s3cr3t"] := by
  have hm₂ : (AddConnection (SetupWithoutPassword NewManagerFresh salt₀).mgr conn7 now n₀).mgr =
      { config :=
          { version := "1.0"
            settings :=
              { masterPasswordHash := [], encryptionSalt := salt₀,
                passwordProtectionEnabled := false, initialized := true,
                connectionTimeout := 10, defaultPort := 22, theme := "dark", language := "en" }
            groups := NewConfig.groups
            connections := [{ conn7 with
                createdAt := now
                updatedAt := now
                encryptedPassword := some ⟨n₀, DeriveKeyFromMachine, "s3cr3t"⟩ }] }
        cryptoService := some ⟨DeriveKeyFromMachine, salt₀⟩
        unlocked := true } := rfl
  have hver : VerifyPassword pwd (hashEncode hashSalt (argon2IDKey pwd hashSalt 3 65536 4 32)) =
      .ok true := by
    rw [verifyPassword_hashPassword pwd pwd hashSalt hhs]
    simp
  refine ⟨saveUnlocked (rekeyFinal pwd salt₁ hashSalt now n₁), ?_, ?_, ?_⟩
  · rw [hm₂, enablePassword_ok _ pwd salt₁ hashSalt n₁ hlen]
    rfl
  · rw [unlock_verified (NewManagerLoad (saveUnlocked (rekeyFinal pwd salt₁ hashSalt now n₁)))
      pwd rfl rfl hver]
  · rw [unlock_verified (NewManagerLoad (saveUnlocked (rekeyFinal pwd salt₁ hashSalt now n₁)))
      pwd rfl rfl hver]
    show List.map Connection.password
      [decryptConn (NewCryptoService pwd salt₁)
        { conn7 with
          password := ""
          createdAt := now
          updatedAt := now
          encryptedPassword := some ⟨n₁, DeriveKey pwd salt₁, "s3cr3t"⟩ }] = ["s3cr3t"]
    have hd : decryptConn (NewCryptoService pwd salt₁)
        { conn7 with
          password := ""
          createdAt := now
          updatedAt := now
          encryptedPassword := some ⟨n₁, DeriveKey pwd salt₁, "s3cr3t"⟩ } =
        { conn7 with
          password := "s3cr3t"
          createdAt := now
          updatedAt := now
          encryptedPassword := some ⟨n₁, DeriveKey pwd salt₁, "s3cr3t"⟩ } := by
      simp [decryptConn, NewCryptoService, CryptoService.Decrypt, Decrypt, conn7, connBase]
    rw [hd]
    rfl

theorem rekey_roundtrip_witness :
    ∃ cfg,
      (EnablePassword
          (AddConnection (SetupWithoutPassword NewManagerFresh "s0").mgr conn7 1 0).mgr
          "newPwd12" "s1" [9] 2).saved = some cfg ∧
        (Unlock (NewManagerLoad cfg) "newPwd12").2 = none ∧
        (Unlock (NewManagerLoad cfg) "newPwd12").1.config.connections.map Connection.password =
          ["s3cr3t"] :=
  rekey_roundtrip "newPwd12" "s0" "s1" [9] 1 0 2 (by decide) (by decide)

end Gossh
